import Mathlib

/-!
Verification of the tradingAI collection-and-persistence pipeline.

Shallow embedding of the Python sources:
  * `src/data_collectors/base_collector.py` (retry loop),
  * `src/analysis/sentiment_analyzer.py` (sentiment thresholds/rounding),
  * `src/utils/indicators.py` (SMA, RSI),
  * `src/utils/fundamentals_analyzer.py` (financial health score),
  * `src/data_collectors/market_data.py` (validation and collect),
  * `src/data_collectors/news_collector.py` (relevance, symbol extraction),
  * `src/storage/database.py` and `src/storage/database_postgres.py`
    (save_market_data).

Machine floats of the Python code are modelled as exact rationals; the one
place where IEEE special values matter (the RSI division avg_gain/avg_loss)
is embedded with its IEEE outcome made explicit (infinity saturates the
formula at 100, 0/0 yields NaN i.e. an undefined entry).
-/

namespace TradingAI

/-! ## Retry loop — `BaseCollector._retry_on_failure`

The Python loop is `for attempt in range(self.max_retries)`: call the
operation; on success return its value; on failure sleep `2 ** attempt`
seconds unless this was the last attempt, in which case re-raise.  When
`max_retries <= 0` the loop body never runs and the function returns `None`.

The operation is modelled as a function from the attempt index to the
outcome of that invocation (`Except ε α`).  The embedding returns the trace
the caller can observe: how many times the operation was invoked, the list
of backoff waits (in seconds) performed between consecutive attempts, and
the final outcome. -/

/-- Outcome of `_retry_on_failure`: a returned value, a re-raised exception,
or Python's implicit `None` return when the loop body never runs. -/
inductive RetryOutcome (α ε : Type) where
  | value : α → RetryOutcome α ε
  | raised : ε → RetryOutcome α ε
  | noneReturned : RetryOutcome α ε
deriving DecidableEq, Repr

/-- One spin of the Python `for attempt in range(max_retries)` loop.
`attempt` is the current 0-indexed attempt, `rest` the number of loop
iterations still available (so the last attempt is `rest = 1`, which
re-raises instead of sleeping, per `if attempt < self.max_retries - 1`). -/
def retryGo (op : ℕ → Except ε α) (attempt : ℕ) : ℕ → ℕ × List ℕ × RetryOutcome α ε
  | 0 => (0, [], .noneReturned)
  | rest + 1 =>
    match op attempt with
    | .ok a => (1, [], .value a)
    | .error e =>
      if rest = 0 then
        (1, [], .raised e)
      else
        let t := retryGo op (attempt + 1) rest
        (t.1 + 1, 2 ^ attempt :: t.2.1, t.2.2)

/-- `BaseCollector._retry_on_failure`.  `maxRetries` is a Python `int`
(settings.MAX_RETRIES), so it is modelled as an integer; `range(n)` is
empty for `n ≤ 0`, hence the `toNat`. -/
def retryOnFailure (op : ℕ → Except ε α) (maxRetries : ℤ) :
    ℕ × List ℕ × RetryOutcome α ε :=
  retryGo op 0 maxRetries.toNat

/-! ## Sentiment — `analyze_sentiment`

`analyze_sentiment(text)` returns `("neutral", 0.0)` for empty or
whitespace-only text; otherwise it obtains the TextBlob polarity of the
text (an external library, modelled as a free input `polarity ∈ [-1, 1]`),
classifies with thresholds `polarity > 0.1` / `polarity < -0.1`, and
returns the label together with `round(polarity, 3)`. -/

/-- Python `round(q, 3)`.  Modelled with `round` (half away from the
floor); Python uses round-half-to-even, which agrees everywhere except at
exact multiples of 1/2000, none of which occur in the statements below. -/
def round3 (q : ℚ) : ℚ := (round (1000 * q) : ℤ) / 1000

/-- `not text or not text.strip()`: the text is empty or all whitespace. -/
def isBlank (text : List Char) : Bool := text.all Char.isWhitespace

/-- `analyze_sentiment`.  `polarity` is TextBlob's polarity for `text`.
Note the code classifies on the raw polarity and rounds only the returned
score. -/
def analyzeSentiment (text : List Char) (polarity : ℚ) : String × ℚ :=
  if isBlank text then ("neutral", 0)
  else
    let label :=
      if polarity > 1/10 then "positive"
      else if polarity < -(1/10) then "negative"
      else "neutral"
    (label, round3 polarity)

/-- The label the claim predicts from the *rounded* score. -/
def labelOfScore (score : ℚ) : String :=
  if score > 1/10 then "positive"
  else if score < -(1/10) then "negative"
  else "neutral"

/-! ## Indicators — `calculate_sma`

`data['Close'].rolling(window=window).mean()`: at every position the
window holds the last `window` values up to and including the current one;
the mean is emitted only when the window holds `window` observations
(`min_periods` defaults to the window size), otherwise the entry is NaN
(modelled as `none`).  The `'Close'`-column existence check of the source
raises before any computation and is outside the series-level model. -/

/-- The rolling window ending at position `i`: the last `w` elements of
`s.take (i+1)` (fewer when the prefix is shorter than `w`). -/
def rollingWindow (s : List ℚ) (w i : ℕ) : List ℚ :=
  (((s.take (i + 1)).reverse.take w)).reverse

/-- `calculate_sma`: one output per input position; `none` while the
window is not yet full. -/
def calculate_sma (s : List ℚ) (w : ℕ) : List (Option ℚ) :=
  (List.range s.length).map (fun i =>
    let win := rollingWindow s w i
    if win.length = w then some (win.sum / w) else none)

/-! ## Indicators — `calculate_rsi`

`delta = closes.diff()` (first entry NaN); `gain = delta.where(delta > 0, 0)`
(the NaN first entry fails the comparison and becomes 0);
`loss = (-delta).where(delta < 0, 0)`; both are smoothed with
`ewm(com=window-1, min_periods=window).mean()` (pandas default
`adjust=True`, i.e. the weighted average with weights `(1-α)^k`,
`α = 1/window`); `rs = avg_gain / avg_loss`; `rsi = 100 - 100/(1+rs)`.

The division is IEEE floating point: `avg_loss > 0` gives a finite `rs`;
`avg_loss = 0 < avg_gain` gives `rs = inf` and `rsi = 100 - 100/inf = 100`;
`avg_gain = avg_loss = 0` gives `rs = NaN` and an undefined (NaN) entry.
Those three outcomes are embedded explicitly below, since `ℚ` has no
infinities. -/

/-- Per-step gains: `delta.where(delta > 0, 0)` with the leading NaN of
`diff()` coerced to 0. -/
def gainsOf : List ℚ → List ℚ
  | [] => []
  | c :: rest => 0 :: List.zipWith (fun cur prev => max (cur - prev) 0) rest (c :: rest)

/-- Per-step losses: `(-delta).where(delta < 0, 0)` with the leading NaN
coerced to 0. -/
def lossesOf : List ℚ → List ℚ
  | [] => []
  | c :: rest => 0 :: List.zipWith (fun cur prev => max (prev - cur) 0) rest (c :: rest)

/-- `ewm(com = w - 1)` smoothing factor: `α = 1/(1 + com) = 1/w`. -/
def ewmAlpha (w : ℕ) : ℚ := 1 / w

/-- Numerator of the adjusted EWM mean over a prefix, Horner-style:
`Σ_{j≤n} (1-α)^(n-j) x_j`. -/
def ewmNum (a : ℚ) (xs : List ℚ) : ℚ :=
  xs.foldl (fun acc x => (1 - a) * acc + x) 0

/-- Weight sum of the adjusted EWM mean over `n` observations:
`Σ_{k<n} (1-α)^k`. -/
def ewmDen (a : ℚ) : ℕ → ℚ
  | 0 => 0
  | n + 1 => (1 - a) * ewmDen a n + 1

/-- `avg_gain` at position `i` (defined in pandas once `i + 1 ≥ window`). -/
def avgGain (s : List ℚ) (w i : ℕ) : ℚ :=
  ewmNum (ewmAlpha w) ((gainsOf s).take (i + 1)) / ewmDen (ewmAlpha w) (i + 1)

/-- `avg_loss` at position `i`. -/
def avgLoss (s : List ℚ) (w i : ℕ) : ℚ :=
  ewmNum (ewmAlpha w) ((lossesOf s).take (i + 1)) / ewmDen (ewmAlpha w) (i + 1)

/-- `calculate_rsi`: `none` before `min_periods = window` observations and
for the NaN produced by the IEEE division `0/0`; otherwise the value of
`100 - 100/(1 + rs)` with `rs = inf` saturating at 100. -/
def calculate_rsi (s : List ℚ) (w : ℕ) : List (Option ℚ) :=
  (List.range s.length).map (fun i =>
    if w ≤ i + 1 then
      if avgLoss s w i = 0 then
        if avgGain s w i = 0 then none else some 100
      else some (100 - 100 / (1 + avgGain s w i / avgLoss s w i))
    else none)

/-! ## Fundamentals — `FundamentalsAnalyzer.calculate_financial_health_score`

The summary row (latest joined fundamentals) carries nullable numeric
fields; Python's `if x and x > 0` is None-or-zero-falsy plus the
comparison, `if x is not None` only excludes absence. -/

/-- The fields of the summary row that the scorer reads. -/
structure FundamentalsSnapshot where
  roe : Option ℚ
  pe_ratio : Option ℚ
  debt_to_equity : Option ℚ
  revenue : Option ℚ

/-- The four sub-scores, i.e. the `scores` dict (all keys always set). -/
structure ScoreBreakdown where
  profitability : ℕ
  valuation : ℕ
  debt : ℕ
  growth : ℕ
deriving DecidableEq, Repr

/-- Profitability sub-score from ROE (`if roe and roe > 0`). -/
def profitabilityScore : Option ℚ → ℕ
  | none => 0
  | some roe =>
    if 0 < roe then
      if 20 < roe then 25
      else if 15 < roe then 20
      else if 10 < roe then 15
      else if 5 < roe then 10
      else 5
    else 0

/-- Valuation sub-score from P/E (`if pe_ratio and pe_ratio > 0`). -/
def valuationScore : Option ℚ → ℕ
  | none => 0
  | some pe =>
    if 0 < pe then
      if pe < 15 then 25
      else if pe < 20 then 20
      else if pe < 25 then 15
      else if pe < 35 then 10
      else 5
    else 0

/-- Debt sub-score from debt/equity (`if debt_to_equity is not None`). -/
def debtScore : Option ℚ → ℕ
  | none => 0
  | some d =>
    if d < 3/10 then 25
    else if d < 1/2 then 20
    else if d < 1 then 15
    else if d < 2 then 10
    else 5

/-- Growth sub-score from revenue (`if revenue and revenue > 0`). -/
def growthScore : Option ℚ → ℕ
  | none => 0
  | some rev =>
    if 0 < rev then
      if 50000000000 < rev then 25
      else if 10000000000 < rev then 20
      else if 1000000000 < rev then 15
      else if 100000000 < rev then 10
      else 5
    else 0

/-- `calculate_financial_health_score`: `(0.0, {})` when the summary is
empty (and on a caught lookup error), otherwise the integer total and the
breakdown dict. -/
def calculate_financial_health_score (summary : Option FundamentalsSnapshot) :
    ℚ × Option ScoreBreakdown :=
  match summary with
  | none => (0, none)
  | some snap =>
    let scores : ScoreBreakdown :=
      ⟨profitabilityScore snap.roe, valuationScore snap.pe_ratio,
        debtScore snap.debt_to_equity, growthScore snap.revenue⟩
    (((scores.profitability + scores.valuation + scores.debt +
        scores.growth : ℕ) : ℚ), some scores)

/-! ## Storage — `save_market_data` in both DatabaseManager variants

The SQLite variant (`storage/database.py`, used by MarketDataCollector)
runs `INSERT OR IGNORE` per record against the
`UNIQUE(symbol, datetime, interval_type)` constraint and counts rows with
`cursor.rowcount > 0`.  The Postgres variant
(`storage/database_postgres.py`, used by main) queries for an existing
`(symbol, timestamp, interval)` record, overwrites its data fields in
place when found, and adds a new record otherwise (counting only adds).
The database table is modelled as the list of stored rows in insertion
order. -/

/-- One fetched OHLCV bar as the SQLite writer consumes it (`dt` is the
already-formatted timestamp string). -/
structure Bar where
  dt : String
  opn : ℚ
  high : ℚ
  low : ℚ
  close : ℚ
  volume : ℤ
deriving DecidableEq, Repr

/-- A stored `market_data` row of the SQLite schema. -/
structure SRow where
  symbol : String
  dt : String
  interval : String
  opn : ℚ
  high : ℚ
  low : ℚ
  close : ℚ
  volume : ℤ
deriving DecidableEq, Repr

/-- The `UNIQUE(symbol, datetime, interval_type)` key of a stored row. -/
def sKey (r : SRow) : String × String × String := (r.symbol, r.dt, r.interval)

/-- `INSERT OR IGNORE` of one record: skipped when a row with the same
unique key exists, appended (and counted) otherwise. -/
def insertOrIgnore (db : List SRow) (row : SRow) : List SRow × ℕ :=
  if db.any (fun r => decide (sKey r = sKey row)) then (db, 0)
  else (db ++ [row], 1)

/-- `DatabaseManager.save_market_data` of `storage/database.py`: returns
the new table state and the count of newly inserted rows. -/
def save_market_data_sqlite (db : List SRow) (symbol interval : String)
    (bars : List Bar) : List SRow × ℕ :=
  if bars = [] then (db, 0)
  else
    bars.foldl (fun st b =>
      let row : SRow := ⟨symbol, b.dt, interval, b.opn, b.high, b.low, b.close, b.volume⟩
      let t := insertOrIgnore st.1 row
      (t.1, st.2 + t.2)) (db, 0)

/-- One fetched bar as the Postgres writer consumes it: every data field
nullable (`pd.notna` guards). -/
structure PBar where
  ts : String
  opn : Option ℚ
  high : Option ℚ
  low : Option ℚ
  close : Option ℚ
  volume : Option ℤ
  sma : Option ℚ
  rsi : Option ℚ
deriving DecidableEq, Repr

/-- A stored `market_data` row of the Postgres (SQLAlchemy) schema. -/
structure PRow where
  symbol : String
  ts : String
  interval : String
  opn : Option ℚ
  high : Option ℚ
  low : Option ℚ
  close : Option ℚ
  volume : Option ℤ
  sma : Option ℚ
  rsi : Option ℚ
deriving DecidableEq, Repr

/-- The natural key `(symbol, timestamp, interval)` of a stored row. -/
def pKey (r : PRow) : String × String × String := (r.symbol, r.ts, r.interval)

/-- `session.query(...).filter_by(symbol, timestamp, interval).first()`
followed by in-place overwrite of the data fields: rewrites the first
matching row, reports whether one was found. -/
def updateFirst (sym itv : String) (b : PBar) : List PRow → List PRow × Bool
  | [] => ([], false)
  | r :: rest =>
    if r.symbol = sym ∧ r.ts = b.ts ∧ r.interval = itv then
      (⟨r.symbol, r.ts, r.interval, b.opn, b.high, b.low, b.close,
        b.volume, b.sma, b.rsi⟩ :: rest, true)
    else
      ((r :: (updateFirst sym itv b rest).1), (updateFirst sym itv b rest).2)

/-- `DatabaseManager.save_market_data` of `storage/database_postgres.py`:
per bar, update the first existing record for the key in place or append
a new one; only appends are counted.  (The rollback-on-exception path is
not modelled: no operation of this model fails.) -/
def save_market_data_pg (db : List PRow) (symbol interval : String)
    (bars : List PBar) : List PRow × ℕ :=
  if bars = [] then (db, 0)
  else
    bars.foldl (fun st b =>
      let t := updateFirst symbol interval b st.1
      if t.2 then (t.1, st.2)
      else (st.1 ++ [⟨symbol, b.ts, interval, b.opn, b.high, b.low, b.close,
        b.volume, b.sma, b.rsi⟩], st.2 + 1)) (db, 0)

/-! ## Market data collector — `MarketDataCollector`

`collect` fetches (external), returns failure on an empty result, runs
`_validate_market_data`, and only then writes through
`save_market_data`.  Of the validation steps, the required-columns check
is structural (every `Bar` has all five fields), the non-positive-price
and outlier checks are warn-only (no effect on the result), and
`High < Low` on any row is the hard failure. -/

/-- `_validate_market_data` restricted to its effective checks. -/
def validate_market_data (data : List Bar) : Bool :=
  !(data.any (fun r => decide (r.high < r.low)))

/-- `MarketDataCollector.collect` given an already-fetched result:
returns the success flag and the table state after the call. -/
def collect (symbol interval : String) (fetched : List Bar)
    (db : List SRow) : Bool × List SRow :=
  if fetched = [] then (false, db)
  else if validate_market_data fetched then
    (true, (save_market_data_sqlite db symbol interval fetched).1)
  else (false, db)

/-! ## News collector — `NewsCollector`

Relevance and symbol extraction both lower-case `title + " " + content`
and do Python substring tests of each configured symbol's base ticker
(`symbol.split('.')[0].lower()`).  Strings are modelled as `List Char` to
make the substring test explicit. -/

/-- `symbol.split('.')[0]`: the part before the first dot. -/
def baseTicker (s : List Char) : List Char := s.takeWhile (· ≠ '.')

/-- `str.lower()`. -/
def lowerStr (s : List Char) : List Char := s.map Char.toLower

/-- Python's `needle in hay` substring test. -/
def containsSub (needle hay : List Char) : Bool :=
  (List.range (hay.length + 1)).any (fun i => needle.isPrefixOf (hay.drop i))

/-- `NewsCollector._is_relevant`. -/
def isRelevant (cfgSymbols : List (List Char)) (title content : List Char) : Bool :=
  let text := lowerStr (title ++ ' ' :: content)
  cfgSymbols.any (fun s => containsSub (lowerStr (baseTicker s)) text)

/-- `NewsCollector._extract_symbols`; `list(set(found))` is modelled by
deduplication (the set's iteration order is irrelevant to the claims). -/
def extractSymbols (cfgSymbols : List (List Char)) (t : List Char) :
    List (List Char) :=
  let text := lowerStr t
  (cfgSymbols.filter (fun s => containsSub (lowerStr (baseTicker s)) text)).dedup

/-- A fetched article after the `or ""` coalescing of `process_and_store`
(`title`, `content`, `description` already strings; pass-through metadata
fields `url`, `source`, `published_at` are omitted, no claim reads them). -/
structure Article where
  title : List Char
  content : List Char
  description : List Char

/-- A stored news row as handed to `insert_news` (again without the
pass-through metadata fields). -/
structure NewsRow where
  title : List Char
  content : List Char
  label : String
  score : ℚ
  symbols : List (List Char)
deriving DecidableEq

/-- `NewsCollector.process_and_store` given the fetched articles.
`polV` is the TextBlob polarity oracle consumed by `analyze_sentiment`.
Returns the news table state and the inserted count. -/
def processAndStore (cfgSymbols : List (List Char)) (polV : List Char → ℚ) :
    List Article → List NewsRow → List NewsRow × ℕ
  | [], db => (db, 0)
  | a :: rest, db =>
    let content := if a.content ≠ [] then a.content else a.description
    if a.title = [] then processAndStore cfgSymbols polV rest db
    else if isRelevant cfgSymbols a.title content then
      let syms := extractSymbols cfgSymbols (a.title ++ ' ' :: content)
      let st := analyzeSentiment content (polV content)
      let t := processAndStore cfgSymbols polV rest
        (db ++ [⟨a.title, content, st.1, st.2, syms⟩])
      (t.1, t.2 + 1)
    else processAndStore cfgSymbols polV rest db

end TradingAI

namespace TradingAI

/-- One-step unfolding of `retryGo` for an operation that always fails. -/
theorem retryGo_fail_succ {α ε : Type} (errs : ℕ → ε) (attempt r : ℕ) :
    retryGo (α := α) (fun i => .error (errs i)) attempt (r + 1) =
      if r = 0 then (1, [], .raised (errs attempt))
      else
        let t := retryGo (α := α) (fun i => .error (errs i)) (attempt + 1) r
        (t.1 + 1, 2 ^ attempt :: t.2.1, t.2.2) := rfl

/-- Trace of the retry loop on an always-failing operation, from any
starting attempt index. -/
theorem retryGo_fail_spec {α ε : Type} (errs : ℕ → ε) :
    ∀ (rest attempt : ℕ),
      retryGo (α := α) (fun i => .error (errs i)) attempt (rest + 1) =
        (rest + 1, (List.range rest).map (fun k => 2 ^ (attempt + k)),
          .raised (errs (attempt + rest))) := by
  intro rest
  induction rest with
  | zero => intro attempt; simp [retryGo_fail_succ]
  | succ r ih =>
    intro attempt
    rw [retryGo_fail_succ, if_neg (Nat.succ_ne_zero r), ih (attempt + 1)]
    have he : attempt + 1 + r = attempt + (r + 1) := by omega
    have hw : (List.range (r + 1)).map (fun k => (2 : ℕ) ^ (attempt + k)) =
        2 ^ attempt :: (List.range r).map (fun k => 2 ^ (attempt + 1 + k)) := by
      rw [List.range_succ_eq_map, List.map_cons, List.map_map]
      have h0 : attempt + 0 = attempt := by omega
      rw [h0]
      have hf : ((fun k => (2 : ℕ) ^ (attempt + k)) ∘ Nat.succ) =
          (fun k => (2 : ℕ) ^ (attempt + 1 + k)) := by
        funext k
        simp only [Function.comp_apply]
        have hk : attempt + Nat.succ k = attempt + 1 + k := by omega
        rw [hk]
      rw [hf]
    rw [he, hw]

/-- C2: an operation that fails on every invocation, retried with
`maxRetries = m ≥ 1`, is invoked exactly `m` times; the waits between
consecutive attempts are `2^0, 2^1, …, 2^(m-2)` seconds (the code's backoff
base delay is fixed at one second, so `base_delay * 2^attempt = 2^attempt`);
and the error of the last attempt is re-raised. -/
theorem retry_always_fail_spec {α ε : Type} (errs : ℕ → ε) (m : ℤ) (hm : 1 ≤ m) :
    retryOnFailure (α := α) (fun i => .error (errs i)) m =
      (m.toNat, (List.range (m.toNat - 1)).map (2 ^ ·), .raised (errs (m.toNat - 1))) := by
  obtain ⟨n, hn⟩ : ∃ n : ℕ, m.toNat = n + 1 := ⟨m.toNat - 1, by omega⟩
  unfold retryOnFailure
  rw [hn, retryGo_fail_spec]
  simp

/-- Witness for C2 at `maxRetries = 3` with error codes `0, 1, 2` per
attempt: three invocations, waits `1` and `2` seconds, error `2` of the
last attempt re-raised. -/
theorem retry_always_fail_spec_witness :
    retryOnFailure (α := ℕ) (ε := ℕ) (fun i => .error i) 3 =
      (3, [1, 2], .raised 2) := by
  have h := retry_always_fail_spec (α := ℕ) (fun i => i) 3 (by decide)
  simpa using h

/-- C9: with `maxRetries = m ≤ 0` the loop body never runs: the operation
is invoked zero times, no backoff wait happens, and Python's implicit
`None` is returned instead of any value or exception. -/
theorem retry_nonpositive_noop {α ε : Type} (op : ℕ → Except ε α) (m : ℤ)
    (hm : m ≤ 0) :
    retryOnFailure op m = (0, [], .noneReturned) := by
  unfold retryOnFailure
  have h0 : m.toNat = 0 := by omega
  rw [h0]
  rfl

/-- Witness for C9 at `maxRetries = -1` with an always-succeeding
operation: it is still never invoked. -/
theorem retry_nonpositive_noop_witness :
    retryOnFailure (ε := ℕ) (fun _ => .ok 7) (-1) = (0, [], .noneReturned) :=
  retry_nonpositive_noop (fun _ => .ok 7) (-1) (by decide)

/-- `round (1000 * p)` is bounded by `±1000` when `p ∈ [-1, 1]`. -/
theorem round_thousand_bounds (p : ℚ) (hp1 : -1 ≤ p) (hp2 : p ≤ 1) :
    -1000 ≤ round (1000 * p) ∧ round (1000 * p) ≤ 1000 := by
  rw [round_eq]
  constructor
  · have hlo : (-1000 : ℚ) + 1 / 2 ≤ 1000 * p + 1 / 2 := by linarith
    have h1 : (⌊(-1000 : ℚ) + 1 / 2⌋ : ℤ) = -1000 := by norm_num
    calc (-1000 : ℤ) = ⌊(-1000 : ℚ) + 1 / 2⌋ := h1.symm
      _ ≤ ⌊1000 * p + 1 / 2⌋ := Int.floor_le_floor hlo
  · have hhi : (1000 : ℚ) * p + 1 / 2 ≤ 1000 + 1 / 2 := by linarith
    have h1 : (⌊(1000 : ℚ) + 1 / 2⌋ : ℤ) = 1000 := by norm_num
    calc ⌊1000 * p + 1 / 2⌋ ≤ ⌊(1000 : ℚ) + 1 / 2⌋ := Int.floor_le_floor hhi
      _ = 1000 := h1

/-- C7 (amended): for non-blank text the returned score is the polarity
rounded to 3 decimals and lies in `[-1, 1]`; the returned label is decided
by the *unrounded* polarity against the thresholds `0.1` / `-0.1`; blank
text yields `("neutral", 0.0)`. -/
theorem analyzeSentiment_spec (text : List Char) (p : ℚ)
    (hp1 : -1 ≤ p) (hp2 : p ≤ 1) :
    (isBlank text = true → analyzeSentiment text p = ("neutral", 0)) ∧
    (isBlank text = false →
      (analyzeSentiment text p).2 = round3 p ∧
      -1 ≤ (analyzeSentiment text p).2 ∧ (analyzeSentiment text p).2 ≤ 1 ∧
      ((analyzeSentiment text p).1 = "positive" ↔ 1 / 10 < p) ∧
      ((analyzeSentiment text p).1 = "negative" ↔ p < -(1 / 10)) ∧
      ((analyzeSentiment text p).1 = "neutral" ↔
        ¬ 1 / 10 < p ∧ ¬ p < -(1 / 10))) := by
  obtain ⟨hlo, hhi⟩ := round_thousand_bounds p hp1 hp2
  have hlo' : (-1000 : ℚ) ≤ (round (1000 * p) : ℤ) := by exact_mod_cast hlo
  have hhi' : ((round (1000 * p) : ℤ) : ℚ) ≤ 1000 := by exact_mod_cast hhi
  have hs1 : -1 ≤ round3 p := by
    unfold round3
    rw [le_div_iff₀ (by norm_num : (0 : ℚ) < 1000)]
    linarith
  have hs2 : round3 p ≤ 1 := by
    unfold round3
    rw [div_le_one (by norm_num : (0 : ℚ) < 1000)]
    linarith
  constructor
  · intro hb
    simp [analyzeSentiment, hb]
  · intro hb
    unfold analyzeSentiment
    rw [hb]
    simp only [Bool.false_eq_true, if_false]
    refine ⟨trivial, hs1, hs2, ?_, ?_, ?_⟩
    · constructor
      · intro h
        by_contra hc
        rw [if_neg (by simpa using hc)] at h
        split_ifs at h <;> simp_all
      · intro h
        rw [if_pos (by simpa using h)]
    · constructor
      · intro h
        split_ifs at h <;> simp_all
      · intro h
        have hnp : ¬ p > 1 / 10 := by linarith
        rw [if_neg hnp, if_pos (by simpa using h)]
    · constructor
      · intro h
        split_ifs at h <;> simp_all
      · rintro ⟨h1, h2⟩
        rw [if_neg (by simpa using h1), if_neg (by simpa using h2)]

/-- C8: for `w ≥ 1` and `len(s) ≥ w`, position `i` of `calculate_sma s w`
is defined iff `i ≥ w - 1`, and when defined it is the arithmetic mean of
the `w` closes `s[i-w+1..i]`. -/
theorem calculate_sma_spec (s : List ℚ) (w : ℕ) (hw : 1 ≤ w)
    (_hlen : w ≤ s.length) (i : ℕ) (hi : i < s.length) :
    ((calculate_sma s w).getD i none ≠ none ↔ w - 1 ≤ i) ∧
    (w - 1 ≤ i →
      (calculate_sma s w).getD i none =
        some (((s.drop (i + 1 - w)).take w).sum / w)) := by
  have htl : (s.take (i + 1)).length = i + 1 := by
    simp only [List.length_take]
    omega
  have hwin : rollingWindow s w i = (s.take (i + 1)).drop (i + 1 - w) := by
    rw [rollingWindow, ← List.rtake_eq_reverse_take_reverse, List.rtake, htl]
  have hget : (calculate_sma s w).getD i none =
      (if (rollingWindow s w i).length = w
        then some ((rollingWindow s w i).sum / w) else none) := by
    unfold calculate_sma
    rw [List.getD_eq_getElem?_getD, List.getElem?_map, List.getElem?_range hi]
    rfl
  by_cases hcase : w ≤ i + 1
  · have hsub : i + 1 - (i + 1 - w) = w := by omega
    have hwin2 : rollingWindow s w i = (s.drop (i + 1 - w)).take w := by
      rw [hwin, List.drop_take, hsub]
    have hlen2 : (rollingWindow s w i).length = w := by
      rw [hwin2]
      simp only [List.length_take, List.length_drop]
      omega
    constructor
    · constructor
      · intro _; omega
      · intro _
        rw [hget, if_pos hlen2]
        simp
    · intro _
      rw [hget, if_pos hlen2, hwin2]
  · have hlen2 : (rollingWindow s w i).length = i + 1 := by
      have h0 : i + 1 - w = 0 := by omega
      rw [hwin, h0, List.drop_zero, htl]
    have hne : (rollingWindow s w i).length ≠ w := by omega
    constructor
    · constructor
      · intro hdef
        rw [hget, if_neg hne] at hdef
        exact absurd rfl hdef
      · intro hle
        exact absurd (by omega : w ≤ i + 1) hcase
    · intro hle
      exact absurd (by omega : w ≤ i + 1) hcase

/-- Witness for C8 at `s = [1, 2, 4]`, `w = 2`, `i = 2`: the last SMA entry
is defined and equals `(2 + 4) / 2 = 3`. -/
theorem calculate_sma_spec_witness :
    ((calculate_sma [1, 2, 4] 2).getD 2 none ≠ none ↔ 2 - 1 ≤ 2) ∧
    (2 - 1 ≤ 2 →
      (calculate_sma [1, 2, 4] 2).getD 2 none =
        some (((([1, 2, 4] : List ℚ).drop (2 + 1 - 2)).take 2).sum / 2)) :=
  calculate_sma_spec [1, 2, 4] 2 (by decide) (by decide) 2 (by decide)

/-- Every entry of a `zipWith` of `max · 0` is nonnegative. -/
theorem mem_zipWith_max_nonneg (g : ℚ → ℚ → ℚ) :
    ∀ (l1 l2 : List ℚ), ∀ x ∈ List.zipWith (fun a b => max (g a b) 0) l1 l2,
      0 ≤ x := by
  intro l1
  induction l1 with
  | nil => intro l2 x hx; simp at hx
  | cons a t ih =>
    intro l2 x hx
    cases l2 with
    | nil => simp at hx
    | cons b t2 =>
      rw [List.zipWith_cons_cons] at hx
      rcases List.mem_cons.mp hx with rfl | hx
      · exact le_max_right _ _
      · exact ih t2 x hx

/-- All per-step gains are nonnegative. -/
theorem gainsOf_nonneg (s : List ℚ) : ∀ x ∈ gainsOf s, 0 ≤ x := by
  cases s with
  | nil => intro x hx; simp [gainsOf] at hx
  | cons c rest =>
    intro x hx
    rw [gainsOf] at hx
    rcases List.mem_cons.mp hx with rfl | hx
    · exact le_refl 0
    · exact mem_zipWith_max_nonneg _ _ _ x hx

/-- All per-step losses are nonnegative. -/
theorem lossesOf_nonneg (s : List ℚ) : ∀ x ∈ lossesOf s, 0 ≤ x := by
  cases s with
  | nil => intro x hx; simp [lossesOf] at hx
  | cons c rest =>
    intro x hx
    rw [lossesOf] at hx
    rcases List.mem_cons.mp hx with rfl | hx
    · exact le_refl 0
    · exact mem_zipWith_max_nonneg _ _ _ x hx

/-- The EWM numerator of a nonnegative series is nonnegative when
`α ≤ 1`. -/
theorem ewmNum_nonneg (a : ℚ) (ha : a ≤ 1) (xs : List ℚ)
    (hxs : ∀ x ∈ xs, 0 ≤ x) : 0 ≤ ewmNum a xs := by
  have key : ∀ (l : List ℚ), (∀ x ∈ l, 0 ≤ x) → ∀ acc, 0 ≤ acc →
      0 ≤ l.foldl (fun acc x => (1 - a) * acc + x) acc := by
    intro l
    induction l with
    | nil => intro _ acc hacc; exact hacc
    | cons y t ih =>
      intro hl acc hacc
      have hy : 0 ≤ y := hl y (List.mem_cons_self _ _)
      refine ih (fun x hx => hl x (List.mem_cons_of_mem _ hx)) _ ?_
      have h1a : 0 ≤ 1 - a := by linarith
      exact add_nonneg (mul_nonneg h1a hacc) hy
  exact key xs hxs 0 le_rfl

/-- The EWM weight sum is nonnegative when `α ≤ 1`. -/
theorem ewmDen_nonneg (a : ℚ) (ha : a ≤ 1) : ∀ n, 0 ≤ ewmDen a n := by
  intro n
  induction n with
  | zero => exact le_rfl
  | succ n ih =>
    rw [ewmDen]
    have := mul_nonneg (by linarith : (0 : ℚ) ≤ 1 - a) ih
    linarith

/-- The EWM weight sum over at least one observation is positive. -/
theorem ewmDen_pos (a : ℚ) (ha : a ≤ 1) (n : ℕ) : 0 < ewmDen a (n + 1) := by
  rw [ewmDen]
  have := mul_nonneg (by linarith : (0 : ℚ) ≤ 1 - a) (ewmDen_nonneg a ha n)
  linarith

/-- The smoothing factor `1/w` is at most one for `w ≥ 1`. -/
theorem ewmAlpha_le_one (w : ℕ) (hw : 1 ≤ w) : ewmAlpha w ≤ 1 := by
  unfold ewmAlpha
  rw [div_le_one (by exact_mod_cast (by omega : 0 < w) : (0 : ℚ) < w)]
  exact_mod_cast hw

/-- `avg_gain` is nonnegative. -/
theorem avgGain_nonneg (s : List ℚ) (w i : ℕ) (hw : 1 ≤ w) :
    0 ≤ avgGain s w i := by
  have ha := ewmAlpha_le_one w hw
  exact div_nonneg
    (ewmNum_nonneg _ ha _ (fun x hx => gainsOf_nonneg s x (List.take_subset _ _ hx)))
    (ewmDen_nonneg _ ha _)

/-- `avg_loss` is nonnegative. -/
theorem avgLoss_nonneg (s : List ℚ) (w i : ℕ) (hw : 1 ≤ w) :
    0 ≤ avgLoss s w i := by
  have ha := ewmAlpha_le_one w hw
  exact div_nonneg
    (ewmNum_nonneg _ ha _ (fun x hx => lossesOf_nonneg s x (List.take_subset _ _ hx)))
    (ewmDen_nonneg _ ha _)

/-- C4: every defined RSI entry lies in `[0, 100]`, and at any position
past the `min_periods` floor where the average loss is zero and the
average gain positive, the entry is defined and exactly 100 (the IEEE
`rs = inf` case: the zero division yields saturation, not NaN). -/
theorem calculate_rsi_spec (s : List ℚ) (w : ℕ) (hw : 1 ≤ w) :
    (∀ o ∈ calculate_rsi s w, 0 ≤ o.getD 0 ∧ o.getD 0 ≤ 100) ∧
    (∀ i, i < s.length → w ≤ i + 1 → avgLoss s w i = 0 →
      0 < avgGain s w i → (calculate_rsi s w).getD i none = some 100) := by
  constructor
  · intro o ho
    rw [calculate_rsi, List.mem_map] at ho
    obtain ⟨i, -, rfl⟩ := ho
    by_cases h1 : w ≤ i + 1
    · by_cases h2 : avgLoss s w i = 0
      · by_cases h3 : avgGain s w i = 0
        · rw [if_pos h1, if_pos h2, if_pos h3]
          norm_num
        · rw [if_pos h1, if_pos h2, if_neg h3]
          norm_num
      · rw [if_pos h1, if_neg h2]
        have hal : 0 < avgLoss s w i :=
          lt_of_le_of_ne (avgLoss_nonneg s w i hw) (Ne.symm h2)
        have hag : 0 ≤ avgGain s w i := avgGain_nonneg s w i hw
        have hrs : 0 ≤ avgGain s w i / avgLoss s w i := div_nonneg hag hal.le
        have ht0 : 0 < 100 / (1 + avgGain s w i / avgLoss s w i) :=
          div_pos (by norm_num) (by linarith)
        have ht100 : 100 / (1 + avgGain s w i / avgLoss s w i) ≤ 100 :=
          div_le_self (by norm_num) (by linarith)
        constructor <;> simp only [Option.getD_some] <;> linarith
    · rw [if_neg h1]
      norm_num
  · intro i hi hfloor hal hag
    have hget : (calculate_rsi s w).getD i none =
        (if w ≤ i + 1 then
          if avgLoss s w i = 0 then
            if avgGain s w i = 0 then none else some 100
          else some (100 - 100 / (1 + avgGain s w i / avgLoss s w i))
        else none) := by
      unfold calculate_rsi
      rw [List.getD_eq_getElem?_getD, List.getElem?_map, List.getElem?_range hi]
      rfl
    rw [hget, if_pos hfloor, if_pos hal, if_neg (ne_of_gt hag)]

/-- Witness for C4 at `closes = [1, 2, 3]`, `window = 2`: all defined
entries are in `[0, 100]`, and position 1 (rising prices, zero average
loss, positive average gain) is exactly 100. -/
theorem calculate_rsi_spec_witness :
    (∀ o ∈ calculate_rsi [1, 2, 3] 2, 0 ≤ o.getD 0 ∧ o.getD 0 ≤ 100) ∧
    (calculate_rsi [1, 2, 3] 2).getD 1 none = some 100 :=
  ⟨(calculate_rsi_spec [1, 2, 3] 2 (by decide)).1,
    (calculate_rsi_spec [1, 2, 3] 2 (by decide)).2 1 (by decide) (by decide)
      (by norm_num [avgLoss, lossesOf, ewmNum, ewmDen, ewmAlpha])
      (by norm_num [avgGain, gainsOf, ewmNum, ewmDen, ewmAlpha])⟩

/-- The profitability sub-score never exceeds 25. -/
theorem profitabilityScore_le (o : Option ℚ) : profitabilityScore o ≤ 25 := by
  cases o with
  | none => simp [profitabilityScore]
  | some r =>
    simp only [profitabilityScore]
    split_ifs <;> omega

/-- The valuation sub-score never exceeds 25. -/
theorem valuationScore_le (o : Option ℚ) : valuationScore o ≤ 25 := by
  cases o with
  | none => simp [valuationScore]
  | some r =>
    simp only [valuationScore]
    split_ifs <;> omega

/-- The debt sub-score never exceeds 25. -/
theorem debtScore_le (o : Option ℚ) : debtScore o ≤ 25 := by
  cases o with
  | none => simp [debtScore]
  | some r =>
    simp only [debtScore]
    split_ifs <;> omega

/-- The growth sub-score never exceeds 25. -/
theorem growthScore_le (o : Option ℚ) : growthScore o ≤ 25 := by
  cases o with
  | none => simp [growthScore]
  | some r =>
    simp only [growthScore]
    split_ifs <;> omega

/-- C5: for every snapshot the total is the sum of the four bucketed
sub-scores and lies in `[0, 100]`; the snapshot
`{roe: 25, pe_ratio: 10, debt_to_equity: 0.2, revenue: 60e9}` scores
`100 = 25 + 25 + 25 + 25`. -/
theorem financial_health_score_spec (snap : FundamentalsSnapshot) :
    (calculate_financial_health_score (some snap)).1 =
      ((profitabilityScore snap.roe + valuationScore snap.pe_ratio +
        debtScore snap.debt_to_equity + growthScore snap.revenue : ℕ) : ℚ) ∧
    (calculate_financial_health_score (some snap)).2 =
      some ⟨profitabilityScore snap.roe, valuationScore snap.pe_ratio,
        debtScore snap.debt_to_equity, growthScore snap.revenue⟩ ∧
    0 ≤ (calculate_financial_health_score (some snap)).1 ∧
    (calculate_financial_health_score (some snap)).1 ≤ 100 ∧
    calculate_financial_health_score
      (some ⟨some 25, some 10, some (1 / 5), some 60000000000⟩) =
      (100, some ⟨25, 25, 25, 25⟩) := by
  refine ⟨rfl, rfl, ?_, ?_, ?_⟩
  · exact Nat.cast_nonneg _
  · have h1 := profitabilityScore_le snap.roe
    have h2 := valuationScore_le snap.pe_ratio
    have h3 := debtScore_le snap.debt_to_equity
    have h4 := growthScore_le snap.revenue
    have hsum : profitabilityScore snap.roe + valuationScore snap.pe_ratio +
        debtScore snap.debt_to_equity + growthScore snap.revenue ≤ 100 := by
      omega
    have heq : (calculate_financial_health_score (some snap)).1 =
        ((profitabilityScore snap.roe + valuationScore snap.pe_ratio +
          debtScore snap.debt_to_equity + growthScore snap.revenue : ℕ) : ℚ) := rfl
    rw [heq]
    exact_mod_cast hsum
  · norm_num [calculate_financial_health_score, profitabilityScore,
      valuationScore, debtScore, growthScore]

/-- C6: a fetched data set with any row where `High < Low` makes
`collect` fail and leaves the stored table untouched. -/
theorem collect_high_lt_low_rejects (symbol interval : String)
    (fetched : List Bar) (db : List SRow)
    (h : ∃ r ∈ fetched, r.high < r.low) :
    collect symbol interval fetched db = (false, db) := by
  obtain ⟨r, hr, hlt⟩ := h
  have hne : fetched ≠ [] := by
    intro he
    rw [he] at hr
    exact List.not_mem_nil r hr
  have hany : fetched.any (fun b => decide (b.high < b.low)) = true :=
    List.any_eq_true.mpr ⟨r, hr, by simpa using hlt⟩
  have hval : validate_market_data fetched = false := by
    unfold validate_market_data
    rw [hany]
    rfl
  unfold collect
  rw [if_neg hne, hval]
  rfl

/-- Witness for C6: one bar with `high = 2 < 3 = low` is rejected without
touching the empty table. -/
theorem collect_high_lt_low_rejects_witness :
    collect "A" "1d" [⟨"t", 1, 2, 3, 1, 0⟩] [] = (false, []) :=
  collect_high_lt_low_rejects "A" "1d" [⟨"t", 1, 2, 3, 1, 0⟩] []
    ⟨⟨"t", 1, 2, 3, 1, 0⟩, List.mem_singleton.mpr rfl, by norm_num⟩

/-- When the table holds exactly one row for the bar's natural key,
`updateFirst` finds it and overwrites its data fields with the bar's. -/
theorem updateFirst_found (sym itv : String) (b : PBar) :
    ∀ (db : List PRow) (old : PRow),
      db.filter (fun r => decide (pKey r = (sym, b.ts, itv))) = [old] →
      (updateFirst sym itv b db).2 = true ∧
      (updateFirst sym itv b db).1.filter
          (fun r => decide (pKey r = (sym, b.ts, itv))) =
        [⟨sym, b.ts, itv, b.opn, b.high, b.low, b.close, b.volume, b.sma, b.rsi⟩] := by
  intro db
  induction db with
  | nil => intro old h; simp at h
  | cons r rest ih =>
    intro old h
    by_cases hk : r.symbol = sym ∧ r.ts = b.ts ∧ r.interval = itv
    · have hkey : pKey r = (sym, b.ts, itv) := by
        simp [pKey, hk.1, hk.2.1, hk.2.2]
      rw [List.filter_cons_of_pos (by simp [hkey])] at h
      injection h with h1 h2
      constructor
      · simp only [updateFirst]
        rw [if_pos hk]
      · simp only [updateFirst]
        rw [if_pos hk]
        have hkey2 : pKey (⟨r.symbol, r.ts, r.interval, b.opn, b.high, b.low,
            b.close, b.volume, b.sma, b.rsi⟩ : PRow) = (sym, b.ts, itv) := hkey
        rw [List.filter_cons_of_pos (by simp [hkey2]), h2]
        simp [hk.1, hk.2.1, hk.2.2]
    · have hkey : pKey r ≠ (sym, b.ts, itv) := by
        intro hc
        apply hk
        simpa [pKey, Prod.ext_iff] using hc
      rw [List.filter_cons_of_neg (by simp [hkey])] at h
      obtain ⟨h2t, h2f⟩ := ih old h
      constructor
      · simp only [updateFirst]
        rw [if_neg hk]
        exact h2t
      · simp only [updateFirst]
        rw [if_neg hk]
        rw [List.filter_cons_of_neg (by simp [hkey])]
        exact h2f

/-- C1 (amended): when a row for the bar's `(symbol, timestamp, interval)`
key is already stored, writing the bar again leaves exactly one row for
the key in both DatabaseManager variants; the Postgres
`save_market_data` overwrites that row with the newly written field
values (the second close wins), while the SQLite `save_market_data`
(`INSERT OR IGNORE`) keeps the originally stored values unchanged. -/
theorem save_market_data_upsert_vs_ignore :
    (∀ (db : List PRow) (sym itv : String) (b : PBar) (old : PRow),
      db.filter (fun r => decide (pKey r = (sym, b.ts, itv))) = [old] →
      (save_market_data_pg db sym itv [b]).1.filter
          (fun r => decide (pKey r = (sym, b.ts, itv))) =
        [⟨sym, b.ts, itv, b.opn, b.high, b.low, b.close, b.volume, b.sma, b.rsi⟩]) ∧
    (∀ (db : List SRow) (sym itv : String) (b : Bar) (old : SRow),
      db.filter (fun r => decide (sKey r = (sym, b.dt, itv))) = [old] →
      (save_market_data_sqlite db sym itv [b]).1.filter
          (fun r => decide (sKey r = (sym, b.dt, itv))) = [old]) := by
  constructor
  · intro db sym itv b old h
    obtain ⟨ht, hf⟩ := updateFirst_found sym itv b db old h
    unfold save_market_data_pg
    rw [if_neg (by simp : ([b] : List PBar) ≠ [])]
    simp only [List.foldl_cons, List.foldl_nil]
    simp only [ht, if_true]
    exact hf
  · intro db sym itv b old h
    have hmem : old ∈ db.filter (fun r => decide (sKey r = (sym, b.dt, itv))) := by
      rw [h]
      exact List.mem_singleton.mpr rfl
    rw [List.mem_filter] at hmem
    obtain ⟨hold_mem, hold_key⟩ := hmem
    unfold save_market_data_sqlite
    rw [if_neg (by simp : ([b] : List Bar) ≠ [])]
    simp only [List.foldl_cons, List.foldl_nil]
    have hany : db.any (fun r => decide (sKey r =
        sKey ⟨sym, b.dt, itv, b.opn, b.high, b.low, b.close, b.volume⟩)) = true := by
      refine List.any_eq_true.mpr ⟨old, hold_mem, ?_⟩
      simpa [sKey] using hold_key
    simp only [insertOrIgnore, hany, if_true]
    exact h

/-- Witness for C1's amended theorem: a stored row with `close = 1` under
key `("A", "t", "1d")`, re-written with `close = 2` — the Postgres table
carries the new values, the SQLite table keeps the old row. -/
theorem save_market_data_upsert_vs_ignore_witness :
    (save_market_data_pg
        [⟨"A", "t", "1d", some 1, some 1, some 1, some 1, some 0, none, none⟩]
        "A" "1d" [⟨"t", some 1, some 1, some 1, some 2, some 0, none, none⟩]).1.filter
        (fun r => decide (pKey r = ("A", "t", "1d"))) =
      [⟨"A", "t", "1d", some 1, some 1, some 1, some 2, some 0, none, none⟩] ∧
    (save_market_data_sqlite [⟨"A", "t", "1d", 1, 1, 1, 1, 0⟩] "A" "1d"
        [⟨"t", 1, 1, 1, 2, 0⟩]).1.filter
        (fun r => decide (sKey r = ("A", "t", "1d"))) =
      [⟨"A", "t", "1d", 1, 1, 1, 1, 0⟩] :=
  ⟨save_market_data_upsert_vs_ignore.1
      [⟨"A", "t", "1d", some 1, some 1, some 1, some 1, some 0, none, none⟩]
      "A" "1d" ⟨"t", some 1, some 1, some 1, some 2, some 0, none, none⟩
      ⟨"A", "t", "1d", some 1, some 1, some 1, some 1, some 0, none, none⟩ (by decide),
    save_market_data_upsert_vs_ignore.2 [⟨"A", "t", "1d", 1, 1, 1, 1, 0⟩]
      "A" "1d" ⟨"t", 1, 1, 1, 2, 0⟩ ⟨"A", "t", "1d", 1, 1, 1, 1, 0⟩ (by decide)⟩

/-- C1 counterexample: under the SQLite `save_market_data` the second
write of key `("A", "t", "1d")` with `close = 2` is ignored — the stored
row keeps `close = 1`, so the newly written values do not win. -/
theorem save_market_data_sqlite_second_close_ignored_cex :
    (save_market_data_sqlite [⟨"A", "t", "1d", 1, 1, 1, 1, 0⟩] "A" "1d"
      [⟨"t", 1, 1, 1, 2, 0⟩]).1 = [⟨"A", "t", "1d", 1, 1, 1, 1, 0⟩] ∧
    ((save_market_data_sqlite [⟨"A", "t", "1d", 1, 1, 1, 1, 0⟩] "A" "1d"
      [⟨"t", 1, 1, 1, 2, 0⟩]).1.map (fun r => r.close)) = [1] ∧
    (1 : ℚ) ≠ 2 := by decide

/-- Structure of a `process_and_store` run: the table grows by appended
rows only, and every appended row came from a non-empty-titled article
that passed `_is_relevant`, with its symbols computed by
`_extract_symbols` over the same `title + " " + content` text. -/
theorem processAndStore_inserted_rows (cfgSymbols : List (List Char))
    (polV : List Char → ℚ) :
    ∀ (arts : List Article) (db : List NewsRow),
      ∃ new, (processAndStore cfgSymbols polV arts db).1 = db ++ new ∧
        ∀ row ∈ new,
          row.title ≠ [] ∧
          isRelevant cfgSymbols row.title row.content = true ∧
          row.symbols = extractSymbols cfgSymbols (row.title ++ ' ' :: row.content) := by
  intro arts
  induction arts with
  | nil =>
    intro db
    refine ⟨[], by simp [processAndStore], ?_⟩
    intro row hr
    simp at hr
  | cons a rest ih =>
    intro db
    by_cases ht : a.title = []
    · obtain ⟨new, h1, h2⟩ := ih db
      refine ⟨new, ?_, h2⟩
      simp only [processAndStore]
      rw [if_pos ht]
      exact h1
    · by_cases hrel : isRelevant cfgSymbols a.title
        (if a.content ≠ [] then a.content else a.description) = true
      · obtain ⟨new, h1, h2⟩ := ih (db ++
          [⟨a.title, (if a.content ≠ [] then a.content else a.description),
            (analyzeSentiment (if a.content ≠ [] then a.content else a.description)
              (polV (if a.content ≠ [] then a.content else a.description))).1,
            (analyzeSentiment (if a.content ≠ [] then a.content else a.description)
              (polV (if a.content ≠ [] then a.content else a.description))).2,
            extractSymbols cfgSymbols
              (a.title ++ ' ' :: (if a.content ≠ [] then a.content else a.description))⟩])
        refine ⟨⟨a.title, (if a.content ≠ [] then a.content else a.description),
            (analyzeSentiment (if a.content ≠ [] then a.content else a.description)
              (polV (if a.content ≠ [] then a.content else a.description))).1,
            (analyzeSentiment (if a.content ≠ [] then a.content else a.description)
              (polV (if a.content ≠ [] then a.content else a.description))).2,
            extractSymbols cfgSymbols
              (a.title ++ ' ' :: (if a.content ≠ [] then a.content else a.description))⟩
          :: new, ?_, ?_⟩
        · simp only [processAndStore]
          rw [if_neg ht, if_pos hrel]
          rw [h1]
          simp
        · intro row hr
          rcases List.mem_cons.mp hr with rfl | hr
          · exact ⟨ht, hrel, rfl⟩
          · exact h2 row hr
      · obtain ⟨new, h1, h2⟩ := ih db
        refine ⟨new, ?_, h2⟩
        simp only [processAndStore]
        rw [if_neg ht, if_neg hrel]
        exact h1

/-- Relevance guarantees a non-empty extraction: both run the same
substring predicate over the same lower-cased text. -/
theorem isRelevant_extract_ne_nil (cfgSymbols : List (List Char))
    (t c : List Char) (h : isRelevant cfgSymbols t c = true) :
    extractSymbols cfgSymbols (t ++ ' ' :: c) ≠ [] := by
  unfold isRelevant at h
  obtain ⟨s, hs, hpred⟩ := List.any_eq_true.mp h
  unfold extractSymbols
  intro hnil
  rw [List.dedup_eq_nil] at hnil
  have hmem : s ∈ cfgSymbols.filter
      (fun s => containsSub (lowerStr (baseTicker s)) (lowerStr (t ++ ' ' :: c))) :=
    List.mem_filter.mpr ⟨hs, hpred⟩
  rw [hnil] at hmem
  exact List.not_mem_nil s hmem

/-- C3 (amended): every row inserted by `process_and_store` has a
non-empty title and passed the relevance test over `title + " " + content`
— equivalently, an article whose title *and content* contain no configured
ticker's base-symbol substring (case-insensitively) is never inserted. -/
theorem news_irrelevant_never_inserted (cfgSymbols : List (List Char))
    (polV : List Char → ℚ) (arts : List Article) (db : List NewsRow)
    (row : NewsRow) (hrow : row ∈ (processAndStore cfgSymbols polV arts db).1)
    (hold : row ∉ db) :
    row.title ≠ [] ∧ isRelevant cfgSymbols row.title row.content = true := by
  obtain ⟨new, h1, h2⟩ := processAndStore_inserted_rows cfgSymbols polV arts db
  rw [h1] at hrow
  rcases List.mem_append.mp hrow with h | h
  · exact absurd h hold
  · exact ⟨(h2 row h).1, (h2 row h).2.1⟩

/-- Witness for C3's amended theorem: the article titled "AAPL up" with
blank content is inserted, and the inserted row is relevant. -/
theorem news_irrelevant_never_inserted_witness :
    (⟨"AAPL up".data, [], "neutral", 0, ["AAPL".data]⟩ : NewsRow).title ≠ [] ∧
    isRelevant ["AAPL".data]
      (⟨"AAPL up".data, [], "neutral", 0, ["AAPL".data]⟩ : NewsRow).title
      (⟨"AAPL up".data, [], "neutral", 0, ["AAPL".data]⟩ : NewsRow).content = true :=
  news_irrelevant_never_inserted ["AAPL".data] (fun _ => 0)
    [⟨"AAPL up".data, [], []⟩] []
    ⟨"AAPL up".data, [], "neutral", 0, ["AAPL".data]⟩ (by decide) (by decide)

/-- C3 counterexample: with configured symbols `["AAPL"]`, the article
titled "Tech up" — whose title contains no ticker substring — but whose
content mentions "aapl" is inserted anyway: the relevance test reads
`title + " " + content`, not the title alone. -/
theorem news_title_only_filter_cex :
    ((processAndStore ["AAPL".data] (fun _ => 0)
        [⟨"Tech up".data, "aapl rises".data, []⟩] []).1.map (fun r => r.title)) =
      ["Tech up".data] ∧
    containsSub (lowerStr (baseTicker "AAPL".data)) (lowerStr "Tech up".data) =
      false := by
  constructor
  · decide
  · decide

/-- C10: every row inserted by `process_and_store` carries a non-empty
symbols list: relevance and extraction match the same tickers against the
same text, so a relevant article yields at least one symbol. -/
theorem news_inserted_symbols_nonempty (cfgSymbols : List (List Char))
    (polV : List Char → ℚ) (arts : List Article) (db : List NewsRow)
    (row : NewsRow) (hrow : row ∈ (processAndStore cfgSymbols polV arts db).1)
    (hold : row ∉ db) :
    row.symbols ≠ [] := by
  obtain ⟨new, h1, h2⟩ := processAndStore_inserted_rows cfgSymbols polV arts db
  rw [h1] at hrow
  rcases List.mem_append.mp hrow with h | h
  · exact absurd h hold
  · obtain ⟨-, hrel, hsym⟩ := h2 row h
    rw [hsym]
    exact isRelevant_extract_ne_nil cfgSymbols row.title row.content hrel

/-- Witness for C10: the row inserted for the article titled "AAPL up"
has the non-empty symbols list `["AAPL"]`. -/
theorem news_inserted_symbols_nonempty_witness :
    (⟨"AAPL up".data, [], "neutral", 0, ["AAPL".data]⟩ : NewsRow).symbols ≠ [] :=
  news_inserted_symbols_nonempty ["AAPL".data] (fun _ => 0)
    [⟨"AAPL up".data, [], []⟩] []
    ⟨"AAPL up".data, [], "neutral", 0, ["AAPL".data]⟩ (by decide) (by decide)

/-- Witness for C7's amended theorem at `text = "ok"`, `polarity = 1/2`:
the result is `("positive", 1/2)` with the score in range. -/
theorem analyzeSentiment_spec_witness :
    analyzeSentiment ['o', 'k'] (1 / 2) = ("positive", 1 / 2) ∧
    (-1 : ℚ) ≤ (analyzeSentiment ['o', 'k'] (1 / 2)).2 ∧
    (analyzeSentiment ['o', 'k'] (1 / 2)).2 ≤ 1 := by
  have h := (analyzeSentiment_spec ['o', 'k'] (1 / 2) (by norm_num)
    (by norm_num)).2 (by decide)
  obtain ⟨hsc, h1, h2, hpos, -, -⟩ := h
  refine ⟨?_, h1, h2⟩
  have hlbl : (analyzeSentiment ['o', 'k'] (1 / 2)).1 = "positive" :=
    hpos.mpr (by norm_num)
  have hval : round3 (1 / 2 : ℚ) = 1 / 2 := by
    unfold round3
    norm_num
  calc analyzeSentiment ['o', 'k'] (1 / 2)
      = ((analyzeSentiment ['o', 'k'] (1 / 2)).1,
          (analyzeSentiment ['o', 'k'] (1 / 2)).2) := rfl
    _ = ("positive", 1 / 2) := by rw [hlbl, hsc, hval]

/-- C7 counterexample: at polarity `0.1004 ∈ [-1, 1]` (TextBlob's polarity
is an average of lexicon values and is modelled as a free input) the code
returns label "positive" from the unrounded polarity, while the claim's
rule applied to the returned (rounded) score `0.1` demands "neutral". -/
theorem sentiment_label_rounding_cex :
    (-1 : ℚ) ≤ 251 / 2500 ∧ (251 / 2500 : ℚ) ≤ 1 ∧
    isBlank ['u', 'p'] = false ∧
    analyzeSentiment ['u', 'p'] (251 / 2500) = ("positive", 1 / 10) ∧
    labelOfScore ((analyzeSentiment ['u', 'p'] (251 / 2500)).2) = "neutral" ∧
    (analyzeSentiment ['u', 'p'] (251 / 2500)).1 ≠
      labelOfScore ((analyzeSentiment ['u', 'p'] (251 / 2500)).2) := by
  have hround : round3 (251 / 2500 : ℚ) = 1 / 10 := by
    unfold round3
    norm_num [round_eq]
  have hval : analyzeSentiment ['u', 'p'] (251 / 2500) = ("positive", 1 / 10) := by
    unfold analyzeSentiment
    rw [if_neg (by decide), if_pos (by norm_num), hround]
  refine ⟨by norm_num, by norm_num, by decide, hval, ?_, ?_⟩
  · rw [hval]
    unfold labelOfScore
    norm_num
  · rw [hval]
    unfold labelOfScore
    norm_num
    decide

end TradingAI
